import Mathlib

/-
Verification of the fsm repository (a finite-state-machine engine in Go).

The Go source is shallowly embedded below:
- Go maps become association lists with unique keys; map insertion updates
  the existing key in place (last write wins), and lookup returns the first
  matching entry.
- The mutable Machine struct becomes an immutable record threaded through
  the operations; the stored pending-transition closure becomes an explicit
  Pending record holding the captured destination and event context.
- Callbacks are functions from the event context to the event context; the
  error a callback may attach is drawn from an abstract type parameter.
- Every dispatch helper additionally returns the list of callback-registry
  keys it invoked, in invocation order, so that callback-ordering claims
  can be stated; this trace is a ghost instrument and alters nothing else.
-/

set_option autoImplicit false

namespace FSM

variable {ε : Type}

/-- Key of the transition table: (event name, source state). Mirrors eKey. -/
structure EKey where
  event : String
  src : String
  deriving DecidableEq, Repr

/-- Key of the callback registry: (target, callback type). Mirrors cKey. -/
structure CKey where
  target : String
  callbackType : Nat
  deriving DecidableEq, Repr

def callbackNone : Nat := 0
def callbackBeforeEvent : Nat := 1
def callbackLeaveState : Nat := 2
def callbackEnterState : Nat := 3
def callbackAfterEvent : Nat := 4

/-- The per-trigger event context. Mirrors the Go Event struct, minus the
back pointer to the machine and the opaque argument slice. -/
structure Event (ε : Type) where
  event : String
  src : String
  dst : String
  err : Option ε
  canceled : Bool
  async : Bool
  deriving DecidableEq, Repr

/-- A user callback mutates the event context. Mirrors type Callback. -/
def Callback (ε : Type) : Type := Event ε → Event ε

/-- An event descriptor supplied at construction. Mirrors EventDesc. -/
structure EventDesc where
  name : String
  src : List String
  dst : String
  deriving DecidableEq, Repr

/-- The pending transition: the Go code stores a closure capturing the
destination and a pointer to the event context; we store both explicitly. -/
structure Pending (ε : Type) where
  dst : String
  e : Event ε

/-- The machine. Mirrors the Go Machine struct (locks left out: the model
is sequential; the transitioner object is the single concrete one). -/
structure Machine (ε : Type) where
  current : String
  transitions : List (EKey × String)
  callbacks : List (CKey × Callback ε)
  transition : Option (Pending ε)

/-- Result of a public operation, mirroring the Go error taxonomy plus the
ok case carrying the context error that the Event method returns. -/
inductive Outcome (ε : Type) where
  | ok (err : Option ε)
  | unknownEventError (event : String)
  | invalidEventError (event state : String)
  | inTransitionError (event : String)
  | notInTransitionError
  | canceledError (err : Option ε)
  | noTransitionError (err : Option ε)
  | asyncError (err : Option ε)
  | internalError
  deriving DecidableEq, Repr

/-- Association-list lookup for the transition table (Go map read). -/
def lookupE : List (EKey × String) → EKey → Option String
  | [], _ => none
  | (k, v) :: rest, key => if k = key then some v else lookupE rest key

/-- Association-list lookup for the callback registry (Go map read). -/
def lookupC : List (CKey × Callback ε) → CKey → Option (Callback ε)
  | [], _ => none
  | (k, v) :: rest, key => if k = key then some v else lookupC rest key

/-- Association-list insertion for the transition table (Go map write:
overwrites an existing key, otherwise appends). -/
def insertE : List (EKey × String) → EKey → String → List (EKey × String)
  | [], k, v => [(k, v)]
  | (k0, v0) :: rest, k, v =>
    if k0 = k then (k, v) :: rest else (k0, v0) :: insertE rest k v

/-- Association-list insertion for the callback registry (Go map write). -/
def insertC : List (CKey × Callback ε) → CKey → Callback ε → List (CKey × Callback ε)
  | [], k, v => [(k, v)]
  | (k0, v0) :: rest, k, v =>
    if k0 = k then (k, v) :: rest else (k0, v0) :: insertC rest k v

/-- Does the first list of characters lead the second one? Mirrors
strings.HasPrefix on the underlying characters. -/
def charsLead : List Char → List Char → Bool
  | [], _ => true
  | _ :: _, [] => false
  | a :: as, b :: bs => a == b && charsLead as bs

/-- Mirrors strings.HasPrefix. -/
def strLeads (pre s : String) : Bool := charsLead pre.data s.data

/-- Drop leading characters that belong to the cutset. -/
def trimLeftChars (cut : List Char) : List Char → List Char
  | [] => []
  | c :: cs => if cut.contains c then trimLeftChars cut cs else c :: cs

/-- Mirrors strings.Trim: removes leading AND trailing characters drawn
from the cutset (the Go code passes a whole word such as "before_" as the
cutset, so this is deliberately not a prefix strip). -/
def goTrim (s cutset : String) : String :=
  ⟨(trimLeftChars cutset.data (trimLeftChars cutset.data s.data).reverse).reverse⟩

/-- The transition table built by NewMachine: for each descriptor, for each
source, insert (name, source) mapped to the destination. -/
def buildTransitions (events : List EventDesc) : List (EKey × String) :=
  events.foldl (fun acc e =>
    e.src.foldl (fun a s => insertE a ⟨e.name, s⟩ e.dst) acc) []

/-- The set (as a list) of event names known to NewMachine (allEvents). -/
def allEventsOf (events : List EventDesc) : List String :=
  events.map (fun e => e.name)

/-- The set (as a list) of state names known to NewMachine (allStatus):
each source, and the destination once per source entry. -/
def allStatusOf (events : List EventDesc) : List String :=
  events.foldl (fun acc e =>
    e.src.foldl (fun a s => a ++ [s, e.dst]) acc) []

/-- Callback-name resolution performed by NewMachine: returns the registry
key under which the named callback is stored, or none when it is silently
dropped. Mirrors the switch in NewMachine, including its use of
strings.Trim with the whole word as cutset. -/
def resolveCallback (allEvents allStatus : List String) (name : String) : Option CKey :=
  if strLeads "before_" name then
    let target := goTrim name "before_"
    if target = "event" then some ⟨target, callbackBeforeEvent⟩
    else if allEvents.contains target then some ⟨target, callbackBeforeEvent⟩
    else none
  else if strLeads "leave_" name then
    let target := goTrim name "leave_"
    if target = "state" then some ⟨target, callbackLeaveState⟩
    else if allStatus.contains target then some ⟨target, callbackLeaveState⟩
    else none
  else if strLeads "enter_" name then
    let target := goTrim name "enter_"
    if target = "state" then some ⟨target, callbackEnterState⟩
    else if allStatus.contains target then some ⟨target, callbackEnterState⟩
    else none
  else if strLeads "after_" name then
    let target := goTrim name "after_"
    if target = "event" then some ⟨target, callbackAfterEvent⟩
    else if allEvents.contains target then some ⟨target, callbackAfterEvent⟩
    else none
  else
    if allStatus.contains name then some ⟨name, callbackEnterState⟩
    else if allEvents.contains name then some ⟨name, callbackAfterEvent⟩
    else none

/-- Mirrors NewMachine: builds the transition table and the callback
registry (callbacks supplied as a list of name-function pairs standing for
the Go map). -/
def NewMachine (initialState : String) (events : List EventDesc)
    (callbacks : List (String × Callback ε)) : Machine ε :=
  let allEvents := allEventsOf events
  let allStatus := allStatusOf events
  { current := initialState
    transitions := buildTransitions events
    callbacks := callbacks.foldl (fun acc nf =>
      match resolveCallback allEvents allStatus nf.1 with
      | some k => insertC acc k nf.2
      | none => acc) []
    transition := none }

/-- Mirrors Machine.Current (lock dropped in the sequential model). -/
def Current (m : Machine ε) : String := m.current

/-- Mirrors Machine.Is. -/
def Is (m : Machine ε) (state : String) : Bool := state = Current m

/-- Mirrors Machine.SetState: unconditionally overwrites the current state. -/
def SetState (m : Machine ε) (state : String) : Machine ε :=
  { m with current := state }

/-- Mirrors Machine.Can: the (event, current) key exists and no transition
is pending. -/
def Can (m : Machine ε) (event : String) : Bool :=
  (lookupE m.transitions ⟨event, m.current⟩).isSome && m.transition.isNone

/-- Mirrors Machine.Cannot. -/
def Cannot (m : Machine ε) (event : String) : Bool := !Can m event

/-- Mirrors Machine.AvailableTransitions: event names of table keys whose
source is the current state, in table iteration order. -/
def AvailableTransitions (m : Machine ε) : List String :=
  m.transitions.foldl (fun acc kv =>
    if kv.1.src = m.current then acc ++ [kv.1.event] else acc) []

/-- The event context freshly constructed at the start of Machine.Event. -/
def initCtx (event src dst : String) : Event ε :=
  { event := event, src := src, dst := dst, err := none
    canceled := false, async := false }

/-- Wildcard half of Machine.beforeEventCallbacks: the callback stored
under the empty target; a cancel request aborts with CanceledError. -/
def beforeWildcard (m : Machine ε) (e : Event ε) (t : List CKey) :
    Event ε × List CKey × Option (Outcome ε) :=
  match lookupC m.callbacks ⟨"", callbackBeforeEvent⟩ with
  | some fn =>
    let e1 := fn e
    if e1.canceled then (e1, t ++ [⟨"", callbackBeforeEvent⟩], some (.canceledError e1.err))
    else (e1, t ++ [⟨"", callbackBeforeEvent⟩], none)
  | none => (e, t, none)

/-- Mirrors Machine.beforeEventCallbacks. Note that the specific lookup
uses the CURRENT STATE as target, exactly as the source does. -/
def beforeEventCallbacks (m : Machine ε) (e : Event ε) :
    Event ε × List CKey × Option (Outcome ε) :=
  match lookupC m.callbacks ⟨m.current, callbackBeforeEvent⟩ with
  | some fn =>
    let e1 := fn e
    if e1.canceled then (e1, [⟨m.current, callbackBeforeEvent⟩], some (.canceledError e1.err))
    else beforeWildcard m e1 [⟨m.current, callbackBeforeEvent⟩]
  | none => beforeWildcard m e []

/-- Wildcard half of Machine.leaveStateCallbacks: cancel wins over async. -/
def leaveWildcard (m : Machine ε) (e : Event ε) (t : List CKey) :
    Event ε × List CKey × Option (Outcome ε) :=
  match lookupC m.callbacks ⟨"", callbackLeaveState⟩ with
  | some fn =>
    let e1 := fn e
    let t1 := t ++ [(⟨"", callbackLeaveState⟩ : CKey)]
    if e1.canceled then (e1, t1, some (.canceledError e1.err))
    else if e1.async then (e1, t1, some (.asyncError e1.err))
    else (e1, t1, none)
  | none => (e, t, none)

/-- Mirrors Machine.leaveStateCallbacks: specific target is the current
(source) state, then the wildcard; after each invocation the canceled flag
is checked first, then the async flag. -/
def leaveStateCallbacks (m : Machine ε) (e : Event ε) :
    Event ε × List CKey × Option (Outcome ε) :=
  match lookupC m.callbacks ⟨m.current, callbackLeaveState⟩ with
  | some fn =>
    let e1 := fn e
    let t1 := [(⟨m.current, callbackLeaveState⟩ : CKey)]
    if e1.canceled then (e1, t1, some (.canceledError e1.err))
    else if e1.async then (e1, t1, some (.asyncError e1.err))
    else leaveWildcard m e1 t1
  | none => leaveWildcard m e []

/-- Mirrors Machine.enterStateCallbacks: specific target is the current
state (already the destination when invoked from the pending closure),
then the wildcard; no flag checks. -/
def enterStateCallbacks (m : Machine ε) (e : Event ε) : Event ε × List CKey :=
  let s := match lookupC m.callbacks ⟨m.current, callbackEnterState⟩ with
    | some fn => (fn e, [(⟨m.current, callbackEnterState⟩ : CKey)])
    | none => (e, ([] : List CKey))
  match lookupC m.callbacks ⟨"", callbackEnterState⟩ with
  | some fn => (fn s.1, s.2 ++ [⟨"", callbackEnterState⟩])
  | none => s

/-- Mirrors Machine.afterEventCallbacks: specific target is the event name
carried by the context, then the wildcard; no flag checks. -/
def afterEventCallbacks (m : Machine ε) (e : Event ε) : Event ε × List CKey :=
  let s := match lookupC m.callbacks ⟨e.event, callbackAfterEvent⟩ with
    | some fn => (fn e, [(⟨e.event, callbackAfterEvent⟩ : CKey)])
    | none => (e, ([] : List CKey))
  match lookupC m.callbacks ⟨"", callbackAfterEvent⟩ with
  | some fn => (fn s.1, s.2 ++ [⟨"", callbackAfterEvent⟩])
  | none => s

/-- Mirrors transitionerStruct.transition: when no transition is pending
the second component is none (NotInTransitionError at the callers);
otherwise the pending closure runs (state write, enter-state callbacks,
after-event callbacks), the slot is cleared, and the final event context
is returned together with the invocation trace. -/
def transitionerTransition (m : Machine ε) :
    Machine ε × Option (Event ε) × List CKey :=
  match m.transition with
  | none => (m, none, [])
  | some p =>
    let m1 := { m with current := p.dst }
    let r1 := enterStateCallbacks m1 p.e
    let r2 := afterEventCallbacks m1 r1.1
    ({ m1 with transition := none }, some r2.1, r1.2 ++ r2.2)

/-- The body of Machine.Event after the transition-table lookup produced a
destination (including the zero-value destination on the empty-table
fallthrough). Mirrors lines 170 to 207 of machine.go. -/
def eventProceed (m : Machine ε) (event dst : String) :
    Machine ε × Outcome ε × List CKey :=
  let b := beforeEventCallbacks m (initCtx event m.current dst)
  match b.2.2 with
  | some r => (m, r, b.2.1)
  | none =>
    if m.current = dst then
      let a := afterEventCallbacks m b.1
      (m, .noTransitionError a.1.err, b.2.1 ++ a.2)
    else
      let m1 := { m with transition := some ⟨dst, b.1⟩ }
      let l := leaveStateCallbacks m1 b.1
      match l.2.2 with
      | some (.canceledError err) =>
        ({ m1 with transition := none }, .canceledError err, b.2.1 ++ l.2.1)
      | some r =>
        ({ m1 with transition := some ⟨dst, l.1⟩ }, r, b.2.1 ++ l.2.1)
      | none =>
        let t := transitionerTransition { m1 with transition := some ⟨dst, l.1⟩ }
        match t.2.1 with
        | some ef => (t.1, .ok ef.err, b.2.1 ++ l.2.1 ++ t.2.2)
        | none => (t.1, .internalError, b.2.1 ++ l.2.1 ++ t.2.2)

/-- Mirrors Machine.Event (named TriggerEvent as in the spec, because the
name Event already denotes the context structure): the pending guard, the
table lookup, the faulty classification loop that inspects only the first
table entry and falls through entirely on an empty table (proceeding with
the Go zero-value destination), and then the dispatch body. -/
def TriggerEvent (m : Machine ε) (event : String) :
    Machine ε × Outcome ε × List CKey :=
  if m.transition.isSome then (m, .inTransitionError event, [])
  else
    match lookupE m.transitions ⟨event, m.current⟩ with
    | some dst => eventProceed m event dst
    | none =>
      match m.transitions with
      | [] => eventProceed m event ""
      | (k, _) :: _ =>
        if k.event = event then (m, .invalidEventError event m.current, [])
        else (m, .unknownEventError event, [])

/-- Modelled from the spec: the public resume operation (ResumeTransition)
is not among the files under src; per the spec (section 4.3) the resume
operation is simply calling the Transition Executor commit again, so it
forwards to transitionerTransition, mapping the no-pending case to
NotInTransitionError and the committed case to a nil error. -/
def ResumeTransition (m : Machine ε) : Machine ε × Outcome ε × List CKey :=
  let r := transitionerTransition m
  match r.2.1 with
  | none => (r.1, .notInTransitionError, r.2.2)
  | some _ => (r.1, .ok none, r.2.2)

/-- A completed public operation on the machine, for stating reachability
invariants: triggering an event, resuming a deferred transition, or
overwriting the state via SetState (queries do not change the machine and
are omitted). -/
inductive Op where
  | trigger (event : String)
  | resume
  | setState (s : String)
  deriving DecidableEq, Repr

/-- One completed public operation: the machine afterwards and the outcome
the caller saw. -/
def stepOp (m : Machine ε) : Op → Machine ε × Outcome ε
  | .trigger ev => ((TriggerEvent m ev).1, (TriggerEvent m ev).2.1)
  | .resume => ((ResumeTransition m).1, (ResumeTransition m).2.1)
  | .setState s => (SetState m s, .ok none)

/-- Ghost flag tracking the phrase: the most recent TriggerEvent call
returned AsyncError and no resume has since committed the transition. A
trigger that returns AsyncError raises it, a trigger rejected with
InTransitionError leaves it, any other trigger outcome lowers it, a
resume lowers it unless it failed with NotInTransitionError (which leaves
it), and SetState never touches it. -/
def nextGhost (op : Op) (g : Bool) (r : Outcome ε) : Bool :=
  match op with
  | .setState _ => g
  | .trigger _ =>
    match r with
    | .asyncError _ => true
    | .inTransitionError _ => g
    | _ => false
  | .resume =>
    match r with
    | .notInTransitionError => g
    | _ => false

/-- Run a sequence of completed public operations, threading the machine
and the ghost flag. -/
def runOps (m : Machine ε) (g : Bool) : List Op → Machine ε × Bool
  | [] => (m, g)
  | op :: rest =>
    runOps (stepOp m op).1 (nextGhost op g (stepOp m op).2) rest

/-- A callback that requests cancellation (calls Cancel with no error). -/
def cbCancel : Callback Unit := fun e => { e with canceled := true }

/-- A callback that requests deferral (calls Async). -/
def cbAsync : Callback Unit := fun e => { e with async := true }

/-- A callback that requests both cancellation and deferral. -/
def cbBoth : Callback Unit := fun e => { e with canceled := true, async := true }

/-- A machine with an empty transition table. -/
def mEmpty : Machine Unit := NewMachine "idle" [] []

/-- A machine whose table holds events a and b, currently in a state from
which neither is permitted. -/
def mAB : Machine Unit :=
  NewMachine "s3" [⟨"a", ["s1"], "s2"⟩, ⟨"b", ["s1"], "s2"⟩] []

/-- A machine with one event scan from idle to done and a callback named
before_scan that cancels. -/
def mScan : Machine Unit :=
  NewMachine "idle" [⟨"scan", ["idle"], "done"⟩] [("before_scan", cbCancel)]

/-- A machine with a self-loop event. -/
def mLoop : Machine Unit := NewMachine "idle" [⟨"loop", ["idle"], "idle"⟩] []

/-- A machine whose before-event phase cancels (the registry entry is keyed
by the current state, which is how the dispatch code looks it up). -/
def mBefCancel : Machine Unit :=
  { current := "idle"
    transitions := [(⟨"scan", "idle"⟩, "done")]
    callbacks := [(⟨"idle", callbackBeforeEvent⟩, cbCancel)]
    transition := none }

/-- A machine whose leave-state phase cancels. -/
def mLeaveCancel : Machine Unit :=
  { current := "idle"
    transitions := [(⟨"scan", "idle"⟩, "done")]
    callbacks := [(⟨"idle", callbackLeaveState⟩, cbCancel)]
    transition := none }

/-- A machine whose leave-state phase requests async deferral. -/
def mLeaveAsync : Machine Unit :=
  { current := "idle"
    transitions := [(⟨"scan", "idle"⟩, "done")]
    callbacks := [(⟨"idle", callbackLeaveState⟩, cbAsync)]
    transition := none }

/-- A machine whose leave-state phase requests cancellation and deferral
at once. -/
def mLeaveBoth : Machine Unit :=
  { current := "idle"
    transitions := [(⟨"scan", "idle"⟩, "done")]
    callbacks := [(⟨"idle", callbackLeaveState⟩, cbBoth)]
    transition := none }

/-- The event context captured by a pending (deferred) transition. -/
def ctxPend : Event Unit :=
  { event := "scan", src := "idle", dst := "done", err := none
    canceled := false, async := true }

/-- A machine parked with a pending transition to done. -/
def mPend : Machine Unit :=
  { current := "idle"
    transitions := [(⟨"scan", "idle"⟩, "done")]
    callbacks := []
    transition := some ⟨"done", ctxPend⟩ }

end FSM

namespace FSM

variable {ε : Type}

/-- C1: the claim states that for every (event, current state) absent from
the transition table, TriggerEvent fails with InvalidEventError when some
table entry carries that event name and with UnknownEventError otherwise,
never succeeds and never changes the state, also on an empty table. The
code violates this: on an empty table the classification loop never runs,
the call proceeds with the zero-value destination, transitions the state
to the empty string and returns nil; and on a non-empty table the loop
returns after inspecting only the first entry, so triggering b (known from
s1) while in s3 is reported as UnknownEventError. -/
theorem c1_classification_code_bug :
    (TriggerEvent mEmpty "bogus").2.1 = .ok none ∧
    (TriggerEvent mEmpty "bogus").1.current = "" ∧
    (TriggerEvent mAB "b").2.1 = .unknownEventError "b" ∧
    ((⟨⟨"b", "s1"⟩, "s2"⟩ : EKey × String) ∈ mAB.transitions) := by
  refine ⟨rfl, rfl, rfl, ?_⟩
  simp [mAB, NewMachine, buildTransitions, insertE]

/-- C2: the claim states that callback names are resolved by stripping a
recognized prefix to obtain the exact remaining target, and that the
literal names such as before_event register wildcard callbacks. The code
uses strings.Trim with the whole word as cutset, which also removes
trailing characters and further leading characters drawn from the word:
before_event resolves to target vent and before_open (with open a known
event) resolves to target pen, so both entries are silently dropped
instead of being registered. -/
theorem c2_callback_resolution_code_bug :
    goTrim "before_event" "before_" = "vent" ∧
    goTrim "before_open" "before_" = "pen" ∧
    (NewMachine (ε := Unit) "idle" [⟨"scan", ["idle"], "done"⟩]
      [("before_event", cbCancel)]).callbacks = [] ∧
    (NewMachine (ε := Unit) "idle" [⟨"open", ["idle"], "done"⟩]
      [("before_open", cbCancel)]).callbacks = [] :=
  ⟨rfl, rfl, rfl, rfl⟩

/-- C3: the claim states that the before-event specific callback is looked
up by the event name. The code registers before-event callbacks under the
event name but looks them up under the CURRENT STATE, so the callback
registered as before_scan (stored under target scan) is never invoked when
scan is triggered from idle: although it would cancel the transition, the
trigger succeeds, the state changes to done, and the invocation trace is
empty. -/
theorem c3_before_lookup_code_bug :
    (lookupC mScan.callbacks ⟨"scan", callbackBeforeEvent⟩).isSome = true ∧
    (TriggerEvent mScan "scan").2.1 = .ok none ∧
    (TriggerEvent mScan "scan").1.current = "done" ∧
    (TriggerEvent mScan "scan").2.2 = [] :=
  ⟨rfl, rfl, rfl, rfl⟩

/-- The wildcard before-event phase either aborts with CanceledError or
reports no error. -/
theorem beforeWildcard_shape (m : Machine ε) (e : Event ε) (t : List CKey) :
    (beforeWildcard m e t).2.2 = none ∨
    ∃ err, (beforeWildcard m e t).2.2 = some (.canceledError err) := by
  unfold beforeWildcard
  cases lookupC m.callbacks ⟨"", callbackBeforeEvent⟩ with
  | none => simp
  | some fn =>
    by_cases hc : (fn e).canceled <;> simp [hc]

/-- The before-event phase either aborts with CanceledError or reports no
error: it can never produce an async or any other outcome. -/
theorem beforeEventCallbacks_shape (m : Machine ε) (e : Event ε) :
    (beforeEventCallbacks m e).2.2 = none ∨
    ∃ err, (beforeEventCallbacks m e).2.2 = some (.canceledError err) := by
  unfold beforeEventCallbacks
  cases lookupC m.callbacks ⟨m.current, callbackBeforeEvent⟩ with
  | none => exact beforeWildcard_shape m e []
  | some fn =>
    by_cases hc : (fn e).canceled
    · simp [hc]
    · simpa [hc] using beforeWildcard_shape m (fn e) [⟨m.current, callbackBeforeEvent⟩]

/-- The wildcard leave-state phase reports no error, CanceledError, or
AsyncError. -/
theorem leaveWildcard_shape (m : Machine ε) (e : Event ε) (t : List CKey) :
    (leaveWildcard m e t).2.2 = none ∨
    (∃ err, (leaveWildcard m e t).2.2 = some (.canceledError err)) ∨
    (∃ err, (leaveWildcard m e t).2.2 = some (.asyncError err)) := by
  unfold leaveWildcard
  cases lookupC m.callbacks ⟨"", callbackLeaveState⟩ with
  | none => simp
  | some fn =>
    by_cases hc : (fn e).canceled
    · simp [hc]
    · by_cases ha : (fn e).async <;> simp [hc, ha]

/-- The leave-state phase reports no error, CanceledError, or AsyncError. -/
theorem leaveStateCallbacks_shape (m : Machine ε) (e : Event ε) :
    (leaveStateCallbacks m e).2.2 = none ∨
    (∃ err, (leaveStateCallbacks m e).2.2 = some (.canceledError err)) ∨
    (∃ err, (leaveStateCallbacks m e).2.2 = some (.asyncError err)) := by
  unfold leaveStateCallbacks
  cases lookupC m.callbacks ⟨m.current, callbackLeaveState⟩ with
  | none => exact leaveWildcard_shape m e []
  | some fn =>
    by_cases hc : (fn e).canceled
    · simp [hc]
    · by_cases ha : (fn e).async
      · simp [hc, ha]
      · simpa [hc, ha] using
          leaveWildcard_shape m (fn e) [⟨m.current, callbackLeaveState⟩]

/-- Every key traced by the wildcard before-event phase extends the given
accumulator only with before-event keys. -/
theorem beforeWildcard_trace (m : Machine ε) (e : Event ε) (t : List CKey) :
    (beforeWildcard m e t).2.1 = t ∨
    (beforeWildcard m e t).2.1 = t ++ [⟨"", callbackBeforeEvent⟩] := by
  unfold beforeWildcard
  cases lookupC m.callbacks ⟨"", callbackBeforeEvent⟩ with
  | none => simp
  | some fn => by_cases hc : (fn e).canceled <;> simp [hc]

/-- Every key traced by the before-event phase is a before-event key. -/
theorem beforeEventCallbacks_trace (m : Machine ε) (e : Event ε) :
    ∀ k ∈ (beforeEventCallbacks m e).2.1, k.callbackType = callbackBeforeEvent := by
  unfold beforeEventCallbacks
  cases lookupC m.callbacks ⟨m.current, callbackBeforeEvent⟩ with
  | none =>
    rcases beforeWildcard_trace m e [] with h | h <;> rw [h] <;> simp
  | some fn =>
    by_cases hc : (fn e).canceled
    · simp [hc]
    · simp only [hc]
      rcases beforeWildcard_trace m (fn e) [⟨m.current, callbackBeforeEvent⟩] with h | h <;>
        simp only [if_neg, Bool.false_eq_true, if_false, h] <;> simp

/-- Every key traced by the after-event phase is an after-event key. -/
theorem afterEventCallbacks_trace (m : Machine ε) (e : Event ε) :
    ∀ k ∈ (afterEventCallbacks m e).2, k.callbackType = callbackAfterEvent := by
  unfold afterEventCallbacks
  cases lookupC m.callbacks ⟨e.event, callbackAfterEvent⟩ with
  | none =>
    cases lookupC m.callbacks ⟨"", callbackAfterEvent⟩ with
    | none => simp
    | some fn => simp
  | some fn =>
    cases lookupC m.callbacks ⟨"", callbackAfterEvent⟩ with
    | none => simp
    | some fn2 => simp

/-- The leave-state phase never reads the pending-transition slot, so
setting it beforehand (as Machine.Event does) changes nothing. -/
theorem leaveStateCallbacks_transition_irrel (m : Machine ε)
    (t : Option (Pending ε)) (e : Event ε) :
    leaveStateCallbacks { m with transition := t } e = leaveStateCallbacks m e := rfl

/-- When the before-event phase reports no error and started from a
context without a cancel request, the resulting context still carries no
cancel request. -/
theorem beforeEventCallbacks_none_canceled (m : Machine ε) (e : Event ε)
    (he : e.canceled = false) :
    (beforeEventCallbacks m e).2.2 = none →
    (beforeEventCallbacks m e).1.canceled = false := by
  unfold beforeEventCallbacks beforeWildcard
  cases h1 : lookupC m.callbacks ⟨m.current, callbackBeforeEvent⟩ with
  | none =>
    cases h2 : lookupC m.callbacks ⟨"", callbackBeforeEvent⟩ with
    | none => intro _; simpa using he
    | some fn => by_cases hc : (fn e).canceled <;> simp [hc]
  | some fn =>
    by_cases hc : (fn e).canceled
    · simp [hc]
    · cases h2 : lookupC m.callbacks ⟨"", callbackBeforeEvent⟩ with
      | none => simp [hc, h2]
      | some fn2 => by_cases hc2 : (fn2 (fn e)).canceled <;> simp [hc, h2, hc2]

/-- In the wildcard leave-state phase, whenever the final context carries
a cancel request (starting from one that did not), the phase reports
CanceledError wrapping the context error: cancellation wins even when the
async flag is also set. -/
theorem leaveWildcard_canceled (m : Machine ε) (e : Event ε) (t : List CKey)
    (he : e.canceled = false) :
    (leaveWildcard m e t).1.canceled = true →
    (leaveWildcard m e t).2.2 =
      some (.canceledError (leaveWildcard m e t).1.err) := by
  unfold leaveWildcard
  cases h1 : lookupC m.callbacks ⟨"", callbackLeaveState⟩ with
  | none => simp [he]
  | some fn =>
    by_cases hc : (fn e).canceled
    · simp [hc]
    · by_cases ha : (fn e).async <;> simp [hc, ha]

/-- In the leave-state phase, whenever the final context carries a cancel
request (starting from one that did not), the phase reports CanceledError
wrapping the context error: the canceled flag is checked before the async
flag after every invocation. -/
theorem leaveStateCallbacks_canceled (m : Machine ε) (e : Event ε)
    (he : e.canceled = false) :
    (leaveStateCallbacks m e).1.canceled = true →
    (leaveStateCallbacks m e).2.2 =
      some (.canceledError (leaveStateCallbacks m e).1.err) := by
  unfold leaveStateCallbacks
  cases h1 : lookupC m.callbacks ⟨m.current, callbackLeaveState⟩ with
  | none => exact leaveWildcard_canceled m e [] he
  | some fn =>
    by_cases hc : (fn e).canceled
    · simp [hc]
    · by_cases ha : (fn e).async
      · simp [hc, ha]
      · simp only [hc, ha, Bool.false_eq_true, if_false]
        exact leaveWildcard_canceled m (fn e) _ (Bool.not_eq_true _ ▸ eq_false_of_ne_true hc)

/-- C4: when the looked-up destination equals the current state and the
before-event callbacks did not cancel, the machine is returned unchanged
(current state and pending slot untouched), the outcome is
NoTransitionError wrapping the context error left by the after-event
callbacks, the invocation trace consists of the before-event phase
followed by the after-event phase (specific then wildcard inside each),
and in particular no leave-state or enter-state callback is invoked. -/
theorem c4_self_transition (m : Machine ε) (event dst : String)
    (h1 : m.transition = none)
    (h2 : lookupE m.transitions ⟨event, m.current⟩ = some dst)
    (h3 : m.current = dst)
    (h4 : (beforeEventCallbacks m (initCtx event m.current dst)).2.2 = none) :
    (TriggerEvent m event).1 = m ∧
    (TriggerEvent m event).2.1 = .noTransitionError
      (afterEventCallbacks m (beforeEventCallbacks m (initCtx event m.current dst)).1).1.err ∧
    (TriggerEvent m event).2.2 =
      (beforeEventCallbacks m (initCtx event m.current dst)).2.1 ++
      (afterEventCallbacks m (beforeEventCallbacks m (initCtx event m.current dst)).1).2 ∧
    ∀ k ∈ (TriggerEvent m event).2.2,
      k.callbackType = callbackBeforeEvent ∨ k.callbackType = callbackAfterEvent := by
  have hT : TriggerEvent m event = eventProceed m event dst := by
    unfold TriggerEvent
    simp [h1, h2]
  have hP : eventProceed m event dst =
      (m, .noTransitionError
        (afterEventCallbacks m (beforeEventCallbacks m (initCtx event m.current dst)).1).1.err,
       (beforeEventCallbacks m (initCtx event m.current dst)).2.1 ++
       (afterEventCallbacks m (beforeEventCallbacks m (initCtx event m.current dst)).1).2) := by
    unfold eventProceed
    dsimp only
    rw [h4, if_pos h3]
  rw [hT, hP]
  refine ⟨rfl, rfl, rfl, ?_⟩
  intro k hk
  rcases List.mem_append.mp hk with hk | hk
  · exact Or.inl (beforeEventCallbacks_trace m _ k hk)
  · exact Or.inr (afterEventCallbacks_trace m _ k hk)

/-- Shared reduction of Machine.Event through its callback phases: the
outcome and machine produced when the before-event phase cancels, when the
leave-state phase cancels, and when the leave-state phase defers. -/
theorem trigger_phase_outcomes (m : Machine ε) (event dst : String)
    (h1 : m.transition = none)
    (h2 : lookupE m.transitions ⟨event, m.current⟩ = some dst) :
    (∀ err,
      (beforeEventCallbacks m (initCtx event m.current dst)).2.2 =
        some (.canceledError err) →
      TriggerEvent m event =
        (m, .canceledError err,
         (beforeEventCallbacks m (initCtx event m.current dst)).2.1)) ∧
    (m.current ≠ dst →
      (beforeEventCallbacks m (initCtx event m.current dst)).2.2 = none →
      (∀ err,
        (leaveStateCallbacks m
            (beforeEventCallbacks m (initCtx event m.current dst)).1).2.2 =
          some (.canceledError err) →
        (TriggerEvent m event).1.current = m.current ∧
        (TriggerEvent m event).1.transition = none ∧
        (TriggerEvent m event).2.1 = .canceledError err) ∧
      (∀ err,
        (leaveStateCallbacks m
            (beforeEventCallbacks m (initCtx event m.current dst)).1).2.2 =
          some (.asyncError err) →
        (TriggerEvent m event).1.current = m.current ∧
        (TriggerEvent m event).1.transition =
          some ⟨dst, (leaveStateCallbacks m
            (beforeEventCallbacks m (initCtx event m.current dst)).1).1⟩ ∧
        (TriggerEvent m event).2.1 = .asyncError err)) := by
  have hT : TriggerEvent m event = eventProceed m event dst := by
    unfold TriggerEvent
    simp [h1, h2]
  refine ⟨?_, ?_⟩
  · intro err hb
    rw [hT]
    unfold eventProceed
    dsimp only
    rw [hb]
  · intro hne hb
    constructor
    · intro err hl
      rw [hT]
      unfold eventProceed
      dsimp only
      rw [hb, if_neg hne, leaveStateCallbacks_transition_irrel, hl]
      exact ⟨rfl, rfl, rfl⟩
    · intro err hl
      rw [hT]
      unfold eventProceed
      dsimp only
      rw [hb, if_neg hne, leaveStateCallbacks_transition_irrel, hl]
      exact ⟨rfl, rfl, rfl⟩

/-- C6: when a before-event callback cancels, TriggerEvent returns
CanceledError wrapping the attached error with the machine unchanged (the
pending slot was never set); when a leave-state callback cancels,
TriggerEvent returns CanceledError with the state unchanged and the
pending slot cleared; when a leave-state callback requests async without
cancelling, TriggerEvent returns AsyncError with the state unchanged and
the pending transition left in place. -/
theorem c6_cancel_and_async (m : Machine ε) (event dst : String)
    (h1 : m.transition = none)
    (h2 : lookupE m.transitions ⟨event, m.current⟩ = some dst) :
    (∀ err,
      (beforeEventCallbacks m (initCtx event m.current dst)).2.2 =
        some (.canceledError err) →
      TriggerEvent m event =
        (m, .canceledError err,
         (beforeEventCallbacks m (initCtx event m.current dst)).2.1)) ∧
    (m.current ≠ dst →
      (beforeEventCallbacks m (initCtx event m.current dst)).2.2 = none →
      (∀ err,
        (leaveStateCallbacks m
            (beforeEventCallbacks m (initCtx event m.current dst)).1).2.2 =
          some (.canceledError err) →
        (TriggerEvent m event).1.current = m.current ∧
        (TriggerEvent m event).1.transition = none ∧
        (TriggerEvent m event).2.1 = .canceledError err) ∧
      (∀ err,
        (leaveStateCallbacks m
            (beforeEventCallbacks m (initCtx event m.current dst)).1).2.2 =
          some (.asyncError err) →
        (TriggerEvent m event).1.current = m.current ∧
        (TriggerEvent m event).1.transition =
          some ⟨dst, (leaveStateCallbacks m
            (beforeEventCallbacks m (initCtx event m.current dst)).1).1⟩ ∧
        (TriggerEvent m event).2.1 = .asyncError err)) :=
  trigger_phase_outcomes m event dst h1 h2

/-- C10: when the leave-state phase ends with the cancel flag set (in
particular when a single leave-state callback requested both cancel and
async), cancellation takes precedence: the phase reports CanceledError
wrapping the context error, TriggerEvent returns that CanceledError and
never AsyncError, the pending slot is cleared and the state unchanged. -/
theorem c10_cancel_beats_async (m : Machine ε) (event dst : String)
    (h1 : m.transition = none)
    (h2 : lookupE m.transitions ⟨event, m.current⟩ = some dst)
    (h3 : m.current ≠ dst)
    (h4 : (beforeEventCallbacks m (initCtx event m.current dst)).2.2 = none)
    (h5 : (leaveStateCallbacks m
        (beforeEventCallbacks m (initCtx event m.current dst)).1).1.canceled = true)
    (_h6 : (leaveStateCallbacks m
        (beforeEventCallbacks m (initCtx event m.current dst)).1).1.async = true) :
    (leaveStateCallbacks m
        (beforeEventCallbacks m (initCtx event m.current dst)).1).2.2 =
      some (.canceledError (leaveStateCallbacks m
        (beforeEventCallbacks m (initCtx event m.current dst)).1).1.err) ∧
    (TriggerEvent m event).2.1 =
      .canceledError (leaveStateCallbacks m
        (beforeEventCallbacks m (initCtx event m.current dst)).1).1.err ∧
    (∀ err, (TriggerEvent m event).2.1 ≠ .asyncError err) ∧
    (TriggerEvent m event).1.current = m.current ∧
    (TriggerEvent m event).1.transition = none := by
  have hbc : (beforeEventCallbacks m (initCtx event m.current dst)).1.canceled = false :=
    beforeEventCallbacks_none_canceled m _ rfl h4
  have hl := leaveStateCallbacks_canceled m
    (beforeEventCallbacks m (initCtx event m.current dst)).1 hbc h5
  have hc6 := (trigger_phase_outcomes m event dst h1 h2).2 h3 h4
  obtain ⟨hcur, hpend, hout⟩ := hc6.1 _ hl
  refine ⟨hl, hout, ?_, hcur, hpend⟩
  intro err hcontra
  rw [hout] at hcontra
  exact Outcome.noConfusion hcontra

/-- Characterization of the pending slot across one dispatch body: the
slot is occupied on return exactly when the outcome is AsyncError, and the
dispatch body never reports InTransitionError. -/
theorem eventProceed_pending_characterization (m : Machine ε) (ev dst : String)
    (h : m.transition = none) :
    ((eventProceed m ev dst).1.transition.isSome =
      (match (eventProceed m ev dst).2.1 with
       | Outcome.asyncError _ => true
       | _ => false)) ∧
    (∀ s, (eventProceed m ev dst).2.1 ≠ .inTransitionError s) := by
  unfold eventProceed
  dsimp only
  rcases beforeEventCallbacks_shape m (initCtx ev m.current dst) with hb | ⟨err, hb⟩
  · rw [hb]
    by_cases hcd : m.current = dst
    · rw [if_pos hcd]
      simp [h]
    · rw [if_neg hcd, leaveStateCallbacks_transition_irrel]
      rcases leaveStateCallbacks_shape m
          (beforeEventCallbacks m (initCtx ev m.current dst)).1 with
        hl | ⟨err, hl⟩ | ⟨err, hl⟩
      · rw [hl]
        simp [transitionerTransition]
      · rw [hl]
        simp
      · rw [hl]
        simp
  · rw [hb]
    simp [h]

/-- Characterization of the pending slot across one TriggerEvent call
starting with an empty slot: the slot is occupied on return exactly when
the outcome is AsyncError, and such a call never reports
InTransitionError. -/
theorem trigger_pending_characterization (m : Machine ε) (ev : String)
    (h : m.transition = none) :
    ((TriggerEvent m ev).1.transition.isSome =
      (match (TriggerEvent m ev).2.1 with
       | Outcome.asyncError _ => true
       | _ => false)) ∧
    (∀ s, (TriggerEvent m ev).2.1 ≠ .inTransitionError s) := by
  unfold TriggerEvent
  rw [h]
  dsimp only [Option.isSome_none, Bool.false_eq_true, if_false]
  cases hL : lookupE m.transitions ⟨ev, m.current⟩ with
  | some dst => exact eventProceed_pending_characterization m ev dst h
  | none =>
    cases hT : m.transitions with
    | nil => exact eventProceed_pending_characterization m ev "" h
    | cons kv rest =>
      obtain ⟨k, v⟩ := kv
      by_cases hk : k.event = ev
      · simp [hk, h]
      · simp [hk, h]

/-- A TriggerEvent call on a machine with an occupied pending slot is
rejected immediately with InTransitionError and changes nothing. -/
theorem trigger_inTransition (m : Machine ε) (ev : String)
    (p : Pending ε) (h : m.transition = some p) :
    TriggerEvent m ev = (m, .inTransitionError ev, []) := by
  unfold TriggerEvent
  rw [h]
  rfl

/-- C5: the async-deferral protocol. A TriggerEvent call that returns
AsyncError leaves the pending slot occupied; every TriggerEvent call on a
machine with an occupied pending slot fails with InTransitionError and
changes nothing; a resume with no pending transition fails with
NotInTransitionError and changes nothing; a resume with a pending
transition commits it exactly once: the current state becomes the deferred
destination, the pending slot is cleared, the outcome is a nil error, and
the invocation trace is exactly one enter-state phase followed by one
after-event phase. -/
theorem c5_async_resume_protocol (m : Machine ε) :
    (∀ ev err, m.transition = none → (TriggerEvent m ev).2.1 = .asyncError err →
      (TriggerEvent m ev).1.transition.isSome = true) ∧
    (∀ ev p, m.transition = some p →
      TriggerEvent m ev = (m, .inTransitionError ev, [])) ∧
    (m.transition = none → ResumeTransition m = (m, .notInTransitionError, [])) ∧
    (∀ p, m.transition = some p →
      (ResumeTransition m).1 = { m with current := p.dst, transition := none } ∧
      (ResumeTransition m).2.1 = .ok none ∧
      (ResumeTransition m).2.2 =
        (enterStateCallbacks { m with current := p.dst } p.e).2 ++
        (afterEventCallbacks { m with current := p.dst }
          (enterStateCallbacks { m with current := p.dst } p.e).1).2) := by
  refine ⟨?_, ?_, ?_, ?_⟩
  · intro ev err h hr
    rw [(trigger_pending_characterization m ev h).1, hr]
  · intro ev p hp
    exact trigger_inTransition m ev p hp
  · intro h
    unfold ResumeTransition transitionerTransition
    rw [h]
  · intro p hp
    unfold ResumeTransition transitionerTransition
    rw [hp]
    exact ⟨rfl, rfl, rfl⟩

/-- One completed public operation preserves the correspondence between
the occupied pending slot and the ghost flag. -/
theorem stepOp_ghost (m : Machine ε) (g : Bool) (op : Op)
    (h : m.transition.isSome = g) :
    (stepOp m op).1.transition.isSome = nextGhost op g (stepOp m op).2 := by
  cases op with
  | setState s => simpa [stepOp, nextGhost, SetState] using h
  | trigger ev =>
    cases hg : m.transition with
    | some p =>
      have ht := trigger_inTransition m ev p hg
      have hg' : g = true := by rw [← h, hg]; rfl
      subst hg'
      simp [stepOp, nextGhost, ht, hg]
    | none =>
      have hc := trigger_pending_characterization m ev hg
      have hg' : g = false := by rw [← h, hg]; rfl
      subst hg'
      simp only [stepOp, nextGhost]
      rw [hc.1]
      cases hr : (TriggerEvent m ev).2.1 <;> rfl
  | resume =>
    cases hg : m.transition with
    | none =>
      have hg' : g = false := by rw [← h, hg]; rfl
      subst hg'
      simp [stepOp, nextGhost, ResumeTransition, transitionerTransition, hg]
    | some p =>
      simp [stepOp, nextGhost, ResumeTransition, transitionerTransition, hg]

/-- Every run of completed public operations preserves the correspondence
between the occupied pending slot and the ghost flag. -/
theorem runOps_ghost (m : Machine ε) (g : Bool) (ops : List Op)
    (h : m.transition.isSome = g) :
    (runOps m g ops).1.transition.isSome = (runOps m g ops).2 := by
  induction ops generalizing m g with
  | nil => simpa [runOps] using h
  | cons op rest ih =>
    simp only [runOps]
    exact ih _ _ (stepOp_ghost m g op h)

/-- C8: in every state reachable by a sequence of completed public
operations from a machine with an empty pending slot, the pending slot is
occupied exactly when the ghost flag holds, i.e. exactly when the most
recent TriggerEvent call returned AsyncError and no resume has since
committed it; in particular every trigger outcome other than AsyncError
(and other than the slot-preserving InTransitionError rejection) leaves
the slot empty on return. -/
theorem c8_pending_invariant (m0 : Machine ε) (ops : List Op)
    (h0 : m0.transition = none) :
    (runOps m0 false ops).1.transition.isSome = (runOps m0 false ops).2 :=
  runOps_ghost m0 false ops (by rw [h0]; rfl)

/-- First-match association lookup succeeds exactly when the key occurs. -/
theorem lookupE_isSome_iff (l : List (EKey × String)) (k : EKey) :
    (lookupE l k).isSome = true ↔ ∃ v, (k, v) ∈ l := by
  induction l with
  | nil => simp [lookupE]
  | cons kv rest ih =>
    obtain ⟨k0, v0⟩ := kv
    by_cases hk : k0 = k
    · subst hk
      constructor
      · intro _
        exact ⟨v0, List.mem_cons_self _ _⟩
      · intro _
        simp [lookupE]
    · simp only [lookupE, if_neg hk, ih]
      constructor
      · rintro ⟨v, hv⟩
        exact ⟨v, List.mem_cons_of_mem _ hv⟩
      · rintro ⟨v, hv⟩
        rcases List.mem_cons.mp hv with he | hm
        · cases he
          exact absurd rfl hk
        · exact ⟨v, hm⟩

/-- Membership in the fold that builds AvailableTransitions. -/
theorem mem_availFold (c x : String) (l : List (EKey × String)) :
    ∀ acc : List String,
      (x ∈ l.foldl (fun a kv => if kv.1.src = c then a ++ [kv.1.event] else a) acc ↔
       x ∈ acc ∨ ∃ kv ∈ l, kv.1.src = c ∧ kv.1.event = x) := by
  induction l with
  | nil => intro acc; simp
  | cons kv rest ih =>
    intro acc
    rw [List.foldl_cons, ih]
    by_cases hs : kv.1.src = c
    · rw [if_pos hs]
      simp only [List.mem_append, List.mem_cons, List.not_mem_nil, or_false]
      constructor
      · rintro ((hx | hx) | ⟨kv2, hm, h1, h2⟩)
        · exact Or.inl hx
        · exact Or.inr ⟨kv, Or.inl rfl, hs, hx.symm⟩
        · exact Or.inr ⟨kv2, Or.inr hm, h1, h2⟩
      · rintro (hx | ⟨kv2, hm | hm, h1, h2⟩)
        · exact Or.inl (Or.inl hx)
        · subst hm
          exact Or.inl (Or.inr h2.symm)
        · exact Or.inr ⟨kv2, hm, h1, h2⟩
    · rw [if_neg hs]
      simp only [List.mem_cons]
      constructor
      · rintro (hx | ⟨kv2, hm, h1, h2⟩)
        · exact Or.inl hx
        · exact Or.inr ⟨kv2, Or.inr hm, h1, h2⟩
      · rintro (hx | ⟨kv2, hm | hm, h1, h2⟩)
        · exact Or.inl hx
        · subst hm
          exact absurd h1 hs
        · exact Or.inr ⟨kv2, hm, h1, h2⟩

/-- Membership in AvailableTransitions is exactly having a table entry
keyed by the current state. -/
theorem mem_availableTransitions (m : Machine ε) (x : String) :
    x ∈ AvailableTransitions m ↔
      ∃ dst, ((⟨x, m.current⟩ : EKey), dst) ∈ m.transitions := by
  unfold AvailableTransitions
  rw [mem_availFold]
  simp only [List.not_mem_nil, false_or]
  constructor
  · rintro ⟨kv, hmem, hsrc, hev⟩
    refine ⟨kv.2, ?_⟩
    have hk : (⟨x, m.current⟩ : EKey) = kv.1 := by
      rw [← hev, ← hsrc]
    rw [hk]
    exact hmem
  · rintro ⟨dst, hmem⟩
    exact ⟨(⟨x, m.current⟩, dst), hmem, rfl, rfl⟩

/-- C7: Can returns true exactly when the (event, current state) key is in
the transition table and no transition is pending; Cannot is its negation;
AvailableTransitions contains exactly the event names keyed with the
current state; and none of these queries modifies the machine (they are
pure functions of it). -/
theorem c7_queries (m : Machine ε) (event : String) :
    (Can m event = true ↔
      (∃ dst, ((⟨event, m.current⟩ : EKey), dst) ∈ m.transitions) ∧
      m.transition = none) ∧
    (Cannot m event = !Can m event) ∧
    (∀ x, x ∈ AvailableTransitions m ↔
      ∃ dst, ((⟨x, m.current⟩ : EKey), dst) ∈ m.transitions) := by
  refine ⟨?_, rfl, fun x => mem_availableTransitions m x⟩
  unfold Can
  rw [Bool.and_eq_true, lookupE_isSome_iff, Option.isNone_iff_eq_none]

/-- C9: SetState unconditionally overwrites the current state with the
given string, performs no validation against the transition table, invokes
no callbacks, returns no error (it returns only the updated machine), and
leaves the pending-transition slot, the transition table and the callback
registry untouched. -/
theorem c9_setstate_unconditional (m : Machine ε) (s : String) :
    (SetState m s).current = s ∧
    (SetState m s).transition = m.transition ∧
    (SetState m s).transitions = m.transitions ∧
    (SetState m s).callbacks = m.callbacks :=
  ⟨rfl, rfl, rfl, rfl⟩

/-- Witness for C4 at the concrete self-loop machine: every hypothesis
holds by evaluation and the conclusion follows by the theorem. -/
theorem c4_self_transition_witness :
    mLoop.transition = none ∧
    lookupE mLoop.transitions ⟨"loop", mLoop.current⟩ = some "idle" ∧
    mLoop.current = "idle" ∧
    (beforeEventCallbacks mLoop (initCtx "loop" mLoop.current "idle")).2.2 = none ∧
    ((TriggerEvent mLoop "loop").1 = mLoop ∧
     (TriggerEvent mLoop "loop").2.1 = .noTransitionError
       (afterEventCallbacks mLoop
         (beforeEventCallbacks mLoop (initCtx "loop" mLoop.current "idle")).1).1.err ∧
     (TriggerEvent mLoop "loop").2.2 =
       (beforeEventCallbacks mLoop (initCtx "loop" mLoop.current "idle")).2.1 ++
       (afterEventCallbacks mLoop
         (beforeEventCallbacks mLoop (initCtx "loop" mLoop.current "idle")).1).2 ∧
     ∀ k ∈ (TriggerEvent mLoop "loop").2.2,
       k.callbackType = callbackBeforeEvent ∨ k.callbackType = callbackAfterEvent) :=
  ⟨rfl, rfl, rfl, rfl, c4_self_transition mLoop "loop" "idle" rfl rfl rfl rfl⟩

/-- Witness for C5 at concrete machines: an async trigger leaves the slot
occupied, a trigger on a parked machine is rejected, a resume with no
pending transition fails, a resume with a pending transition commits it. -/
theorem c5_async_resume_protocol_witness :
    ((TriggerEvent mLeaveAsync "scan").2.1 = .asyncError none →
      (TriggerEvent mLeaveAsync "scan").1.transition.isSome = true) ∧
    (TriggerEvent mPend "scan" = (mPend, .inTransitionError "scan", [])) ∧
    (ResumeTransition mEmpty = (mEmpty, .notInTransitionError, [])) ∧
    ((ResumeTransition mPend).1 = { mPend with current := "done", transition := none } ∧
     (ResumeTransition mPend).2.1 = .ok none ∧
     (ResumeTransition mPend).2.2 =
       (enterStateCallbacks { mPend with current := "done" } ctxPend).2 ++
       (afterEventCallbacks { mPend with current := "done" }
         (enterStateCallbacks { mPend with current := "done" } ctxPend).1).2) :=
  ⟨(c5_async_resume_protocol mLeaveAsync).1 "scan" none rfl,
   (c5_async_resume_protocol mPend).2.1 "scan" ⟨"done", ctxPend⟩ rfl,
   (c5_async_resume_protocol mEmpty).2.2.1 rfl,
   (c5_async_resume_protocol mPend).2.2.2 ⟨"done", ctxPend⟩ rfl⟩

/-- Witness for C6 at concrete machines: a cancelling before-event
callback, a cancelling leave-state callback, and a deferring leave-state
callback. -/
theorem c6_cancel_and_async_witness :
    (TriggerEvent mBefCancel "scan" =
      (mBefCancel, .canceledError none,
       (beforeEventCallbacks mBefCancel (initCtx "scan" mBefCancel.current "done")).2.1)) ∧
    ((TriggerEvent mLeaveCancel "scan").1.current = mLeaveCancel.current ∧
     (TriggerEvent mLeaveCancel "scan").1.transition = none ∧
     (TriggerEvent mLeaveCancel "scan").2.1 = .canceledError none) ∧
    ((TriggerEvent mLeaveAsync "scan").1.current = mLeaveAsync.current ∧
     (TriggerEvent mLeaveAsync "scan").1.transition =
       some ⟨"done", (leaveStateCallbacks mLeaveAsync
         (beforeEventCallbacks mLeaveAsync (initCtx "scan" mLeaveAsync.current "done")).1).1⟩ ∧
     (TriggerEvent mLeaveAsync "scan").2.1 = .asyncError none) :=
  ⟨(c6_cancel_and_async mBefCancel "scan" "done" rfl rfl).1 none rfl,
   ((c6_cancel_and_async mLeaveCancel "scan" "done" rfl rfl).2 (by decide) rfl).1 none rfl,
   ((c6_cancel_and_async mLeaveAsync "scan" "done" rfl rfl).2 (by decide) rfl).2 none rfl⟩

/-- Witness for C7 at a concrete machine. -/
theorem c7_queries_witness :
    (Can mAB "a" = true ↔
      (∃ dst, ((⟨"a", mAB.current⟩ : EKey), dst) ∈ mAB.transitions) ∧
      mAB.transition = none) ∧
    (Cannot mAB "a" = !Can mAB "a") ∧
    (∀ x, x ∈ AvailableTransitions mAB ↔
      ∃ dst, ((⟨x, mAB.current⟩ : EKey), dst) ∈ mAB.transitions) :=
  c7_queries mAB "a"

/-- Witness for C8 at a concrete machine and operation sequence that
parks a transition, gets rejected, resumes, resumes again in vain, and
overwrites the state. -/
theorem c8_pending_invariant_witness :
    (runOps mLeaveAsync false
      [Op.trigger "scan", Op.trigger "x", Op.resume, Op.resume,
       Op.setState "s"]).1.transition.isSome =
    (runOps mLeaveAsync false
      [Op.trigger "scan", Op.trigger "x", Op.resume, Op.resume,
       Op.setState "s"]).2 :=
  c8_pending_invariant mLeaveAsync _ rfl

/-- Witness for C10 at a concrete machine whose leave-state callback sets
both the cancel and the async flag. -/
theorem c10_cancel_beats_async_witness :
    mLeaveBoth.current ≠ "done" ∧
    ((leaveStateCallbacks mLeaveBoth
        (beforeEventCallbacks mLeaveBoth (initCtx "scan" mLeaveBoth.current "done")).1).2.2 =
      some (.canceledError (leaveStateCallbacks mLeaveBoth
        (beforeEventCallbacks mLeaveBoth (initCtx "scan" mLeaveBoth.current "done")).1).1.err) ∧
     (TriggerEvent mLeaveBoth "scan").2.1 =
       .canceledError (leaveStateCallbacks mLeaveBoth
         (beforeEventCallbacks mLeaveBoth (initCtx "scan" mLeaveBoth.current "done")).1).1.err ∧
     (∀ err, (TriggerEvent mLeaveBoth "scan").2.1 ≠ .asyncError err) ∧
     (TriggerEvent mLeaveBoth "scan").1.current = mLeaveBoth.current ∧
     (TriggerEvent mLeaveBoth "scan").1.transition = none) :=
  ⟨by decide,
   c10_cancel_beats_async mLeaveBoth "scan" "done" rfl rfl (by decide) rfl rfl rfl⟩

end FSM
